import Mathlib

/-!
Verification development for `src/my_dress_up_jupyter.py`, a tool that rewrites a
Jupyter-notebook document by annotating markdown headings with HTML anchor tags and
prepending a generated table-of-contents cell.

The Python functions are embedded shallowly: dictionaries become structures, the
heading table (a dict with auto-incrementing integer keys) becomes a `List`,
`None`-or-list arguments become `Option (List String)`, and the file-name
derivation in `save_doc_enchulado` is embedded over character lists.
-/

namespace DressUp

/-- The whitespace characters stripped by Python's `str.rstrip()` on the ASCII range. -/
def pyIsSpace (c : Char) : Bool :=
  c = ' ' || c = '\t' || c = '\n' || c = '\r' || c = '\x0b' || c = '\x0c'

/-- Python `s.rstrip()`: remove trailing whitespace characters. -/
def pyRstrip (s : String) : String :=
  String.mk ((s.data.reverse.dropWhile pyIsSpace).reverse)

/-- Python `s.replace(' ', '_')` (the pattern is a single character, so this is a
character-wise map). -/
def pyReplaceSpace (s : String) : String :=
  String.mk (s.data.map fun c => if c = ' ' then '_' else c)

/-- Python `s.startswith(pre)`: `pre` is a prefix of `s` (character-wise). -/
def pyStartsWith (s pre : String) : Bool := pre.data.isPrefixOf s.data

/-- Python `s[n:]`: drop the first `n` characters (all of them when `n` exceeds the
length). -/
def pyDrop (s : String) (n : Nat) : String := String.mk (s.data.drop n)

/-- A notebook cell: `cell_type`, `id`, `metadata` (opaque mapping) and `source`
(ordered list of text lines). -/
structure Cell where
  cell_type : String
  id : String
  metadata : List (String × String)
  source : List String
deriving DecidableEq, Inhabited

/-- A notebook document: the `cells` field plus the remaining top-level JSON keys,
kept opaque. -/
structure Document where
  cells : List Cell
  extra : List (String × String)
deriving DecidableEq, Inhabited

/-- One entry of the heading table built by `extract_info`:
`{'title': ..., 'level': ..., 'anchor': ...}`. -/
structure HeadingInfo where
  title : String
  level : Nat
  anchor : String
deriving DecidableEq, Inhabited

/-- `len(re.findall('#', word))`: the number of `'#'` characters anywhere in the line. -/
def countHash (word : String) : Nat := word.data.count '#'

/-- `maquillate(title, level, colors)`: wrap a title in a color span, the color picked
cyclically by level. (`colors[level % len(colors)]`; the function is only ever called
with a non-empty color list, so the `getD` default is never read.) -/
def maquillate (title : String) (level : Nat) (colors : List String) : String :=
  let color := colors.getD (level % colors.length) ""
  "<span style=\"color: " ++ color ++ "\">" ++ title ++ "</span>"

/-- Python truthiness of the `colors` argument (`None` or a list): `if colors:` is
true exactly for a present, non-empty list. -/
def pyTruthy : Option (List String) → Bool
  | none => false
  | some l => !l.isEmpty

/-- `create_source_anchor(source, values, colors)`: prepend the HTML anchor line and
overwrite index 1 (the original first line) with the re-rendered heading
`f"#{'#'*level} {title}"`, the title optionally colored. -/
def create_source_anchor (source : List String) (values : HeadingInfo)
    (colors : Option (List String)) : List String :=
  let full_term := "<a class=\"anchor\" id=\"" ++ values.anchor ++ "\"></a>\n"
  let title :=
    if pyTruthy colors then maquillate values.title values.level (colors.getD [])
    else values.title
  (full_term :: source).set 1
    ("#" ++ String.mk (List.replicate values.level '#') ++ " " ++ title)

/-- `extract_info(source, titles)`: for each line starting with `'#'`, record
`level = len(re.findall('#', word)) - 1`, `title = word[level+2:]`, and
`anchor = title.rstrip().replace(' ', '_') + '_' + str(len(titles))`, appending at the
next integer key (list position). -/
def extract_info (source : List String) (titles : List HeadingInfo) : List HeadingInfo :=
  source.foldl (fun ts word =>
    if pyStartsWith word "#" then
      let level := countHash word - 1
      let title := pyDrop word (level + 2)
      let anchor := pyReplaceSpace (pyRstrip title) ++ "_" ++ Nat.repr ts.length
      ts ++ [{ title := title, level := level, anchor := anchor }]
    else ts) titles

/-- Modelled effect of
`re.sub(f'((?:^|\\W){re.escape(anchor)}(?:$|\\W))', r'(#\1)', anchor)` in
`format_title_index`: the literal part of the pattern is the whole subject string
`anchor`, so the unique match is the entire string (with the surrounding assertions
matching emptily at `^` and `$`) and the substitution wraps it as `(#anchor)`. -/
def re_sub_wrap (anchor : String) : String := "(#" ++ anchor ++ ")"

/-- `format_title_index`: one table-of-contents line,
`'\t'*level + '+ ' + '[' + title + ']' + '(#anchor)' + '\n'`. -/
def format_title_index (t : HeadingInfo) : String :=
  String.mk (List.replicate t.level '\t') ++ "+ " ++ ("[" ++ t.title ++ "]")
    ++ re_sub_wrap t.anchor ++ "\n"

/-- `generate_contents(info_to_add)`: the table-of-contents cell. The random
8-hex-character id produced by `generate_corpus_id` is threaded in as a parameter. -/
def generate_contents (cell_id : String) (info_to_add : List HeadingInfo) : Cell :=
  { cell_type := "markdown", id := cell_id, metadata := [],
    source := " # Table of Contents\n" :: info_to_add.map format_title_index }

/-- One iteration of the loop body of `generate_new_cells`. -/
def processCell (colors : Option (List String)) (acc : List HeadingInfo × List Cell)
    (cell : Cell) : List HeadingInfo × List Cell :=
  if cell.cell_type ≠ "markdown" then (acc.1, acc.2 ++ [cell])
  else if cell.source.isEmpty || !(pyStartsWith (cell.source.headD "") "#") then
    (acc.1, acc.2 ++ [cell])
  else
    let info2 := extract_info cell.source acc.1
    if info2.length = 0 then (info2, acc.2 ++ [cell])
    else
      let values := info2.getD (info2.length - 1) default
      (info2, acc.2 ++ [{ cell with source := create_source_anchor cell.source values colors }])

/-- `generate_new_cells(cells, colors)`: fold the loop body over the cells, starting
from an empty heading table and an empty output list. -/
def generate_new_cells (cells : List Cell) (colors : Option (List String)) :
    List HeadingInfo × List Cell :=
  cells.foldl (processCell colors) ([], [])

/-- `create_new_document(document, colors)` with the contents-cell id threaded in. -/
def create_new_document (cell_id : String) (document : Document)
    (colors : Option (List String)) : Document :=
  let r := generate_new_cells document.cells colors
  { document with cells := generate_contents cell_id r.1 :: r.2 }

/-- Python `file.split(sep)[0]` over character lists: the prefix of the subject before
the first occurrence of `sep` (the whole subject when `sep` does not occur). -/
def takeUntilSub (sep : List Char) : List Char → List Char
  | [] => []
  | c :: cs => if sep.isPrefixOf (c :: cs) then [] else c :: takeUntilSub sep cs

/-- The output file name computed by `save_doc_enchulado`:
`file.split('.ipynb')[0] + '_chulo.ipynb'`. -/
def save_name (file : String) : String :=
  String.mk (takeUntilSub ".ipynb".data file.data) ++ "_chulo.ipynb"

/-! Derived forms of the per-line computations of `extract_info`, used to state and
prove structural lemmas about the heading table. -/

/-- The level `extract_info` assigns to a line: all `'#'` occurrences minus one. -/
def levelOf (word : String) : Nat := countHash word - 1

/-- The title `extract_info` assigns to a line: `word[level+2:]`. -/
def titleOf (word : String) : String := pyDrop word (levelOf word + 2)

/-- The anchor `extract_info` assigns to a line recorded at ordinal `n`. -/
def anchorOf (word : String) (n : Nat) : String :=
  pyReplaceSpace (pyRstrip (titleOf word)) ++ "_" ++ Nat.repr n

/-- The heading-table entry `extract_info` records for a line at ordinal `n`. -/
def mkEntry (word : String) (n : Nat) : HeadingInfo :=
  { title := titleOf word, level := levelOf word, anchor := anchorOf word n }

/-- The sequence of heading-table entries contributed by a list of lines when the
table already holds `n` entries. -/
def entriesFrom (n : Nat) : List String → List HeadingInfo
  | [] => []
  | w :: ws =>
    if pyStartsWith w "#" then mkEntry w n :: entriesFrom (n + 1) ws
    else entriesFrom n ws

/-- Whether a cell reaches the annotation branch of `generate_new_cells`: markdown,
non-empty source, first line starting with `'#'`. -/
def qualifies (cell : Cell) : Bool :=
  cell.cell_type == "markdown" && !cell.source.isEmpty
    && pyStartsWith (cell.source.headD "") "#"

/-- All heading lines of a cell list, in encounter order: for each qualifying cell,
its lines that start with `'#'`. -/
def headingLines : List Cell → List String
  | [] => []
  | cell :: cs =>
    (if qualifies cell then cell.source.filter (fun w => pyStartsWith w "#") else [])
      ++ headingLines cs

/-- The spec's reading of a heading level: the length of the line's leading run of
`'#'` characters, minus one. -/
def specLeadingLevel (word : String) : Nat :=
  (word.data.takeWhile (fun c => c = '#')).length - 1

/-- Decimal digit string of a natural number by well-founded recursion; shown below
to agree with `Nat.repr`, and used to prove anchors distinct. -/
def specDigits (n : Nat) : List Char :=
  if n < 10 then [Nat.digitChar n]
  else specDigits (n / 10) ++ [Nat.digitChar (n % 10)]
termination_by n
decreasing_by exact Nat.div_lt_self (by omega) (by omega)

/-- The input document of the spec's end-to-end example. -/
def exDoc : Document :=
  { cells := [
      { cell_type := "markdown", id := "c1", metadata := [], source := ["# Intro\n"] },
      { cell_type := "code", id := "c2", metadata := [], source := ["print(1)"] },
      { cell_type := "markdown", id := "c3", metadata := [], source := ["## Details\n"] }],
    extra := [] }

/-- The `values = info_to_add[len(info_to_add) - 1]` lookup of `generate_new_cells`:
the last heading-table entry after scanning a cell's source. -/
def lastEntry (T : List HeadingInfo) (source : List String) : HeadingInfo :=
  (extract_info source T).getD ((extract_info source T).length - 1) default

/-- A concrete non-markdown cell, used to witness the passthrough behavior. -/
def codeCell : Cell :=
  { cell_type := "code", id := "x", metadata := [], source := ["print(1)"] }

/-- A concrete markdown cell containing two heading lines. -/
def mdCell2 : Cell :=
  { cell_type := "markdown", id := "m", metadata := [], source := ["# A\n", "## B\n"] }

/-- A concrete document without any markdown cell. -/
def noMdDoc : Document :=
  { cells := [{ cell_type := "code", id := "k", metadata := [], source := ["1"] }],
    extra := [("nbformat", "4")] }

/-! ## Theorems -/

/-- Claim C1, counterexample: on the end-to-end example document the contents cell's
lines after the header are NOT `"+ [Intro](#Intro_0)\n"` and
`"\t+ [Details](#Details_1)\n"`: the recorded titles keep their trailing newline, which
ends up inside the square brackets of each contents line. -/
theorem c1_counterexample :
    ((create_new_document "00000000" exDoc none).cells.getD 0 default).source ≠
      [" # Table of Contents\n", "+ [Intro](#Intro_0)\n", "\t+ [Details](#Details_1)\n"] := by
  decide

/-- Claim C1 (amended): on the end-to-end example document the transformation returns
the contents cell with lines `"+ [Intro\n](#Intro_0)\n"` and
`"\t+ [Details\n](#Details_1)\n"` after the header (the link text keeps the title's
trailing newline), followed by the Intro cell with the `Intro_0` anchor tag prepended,
the code cell unchanged, and the Details cell with the `Details_1` anchor tag
prepended. -/
theorem c1_end_to_end :
    create_new_document "00000000" exDoc none =
      { cells := [
          { cell_type := "markdown", id := "00000000", metadata := [],
            source := [" # Table of Contents\n", "+ [Intro\n](#Intro_0)\n",
                       "\t+ [Details\n](#Details_1)\n"] },
          { cell_type := "markdown", id := "c1", metadata := [],
            source := ["<a class=\"anchor\" id=\"Intro_0\"></a>\n", "# Intro\n"] },
          { cell_type := "code", id := "c2", metadata := [], source := ["print(1)"] },
          { cell_type := "markdown", id := "c3", metadata := [],
            source := ["<a class=\"anchor\" id=\"Details_1\"></a>\n", "## Details\n"] }],
        extra := [] } := by
  decide

/-- Structure of `takeUntilSub sep l` for non-empty `sep`: it is a prefix of `l`, it
contains no occurrence of `sep`, and it is cut exactly at the first occurrence of
`sep` (or is all of `l` when `sep` does not occur). -/
theorem takeUntilSub_spec (sep : List Char) (hsep : sep ≠ []) :
    ∀ l : List Char,
      takeUntilSub sep l <+: l ∧
      ¬ sep <:+: takeUntilSub sep l ∧
      (takeUntilSub sep l ++ sep <+: l ∨
        (takeUntilSub sep l = l ∧ ¬ sep <:+: l)) := by
  intro l
  induction l with
  | nil =>
    refine ⟨List.nil_prefix, ?_, Or.inr ⟨rfl, ?_⟩⟩ <;>
      simp [takeUntilSub, List.infix_nil, hsep]
  | cons c cs ih =>
    by_cases hp : sep.isPrefixOf (c :: cs)
    · have hpre : sep <+: c :: cs := List.isPrefixOf_iff_prefix.mp hp
      refine ⟨?_, ?_, Or.inl ?_⟩ <;> simp [takeUntilSub, hp, List.infix_nil, hsep, hpre]
    · obtain ⟨ih1, ih2, ih3⟩ := ih
      have hres : takeUntilSub sep (c :: cs) = c :: takeUntilSub sep cs := by
        simp [takeUntilSub, hp]
      have hnpre : ¬ sep <+: c :: cs := fun h => hp (List.isPrefixOf_iff_prefix.mpr h)
      refine ⟨?_, ?_, ?_⟩
      · rw [hres]; exact List.cons_prefix_cons.mpr ⟨rfl, ih1⟩
      · rw [hres]; intro hinf
        rcases List.infix_cons_iff.mp hinf with h | h
        · exact hnpre (h.trans (List.cons_prefix_cons.mpr ⟨rfl, ih1⟩))
        · exact ih2 h
      · rcases ih3 with h | ⟨heq, hninf⟩
        · exact Or.inl (by rw [hres]; exact List.cons_prefix_cons.mpr ⟨rfl, h⟩)
        · refine Or.inr ⟨by rw [hres, heq], ?_⟩
          intro hinf
          rcases List.infix_cons_iff.mp hinf with h | h
          · exact hnpre h
          · exact hninf h

/-- Claim C9, counterexample: for the file name `"a.ipynb.ipynb"`, stripping the
`.ipynb` suffix and appending `_chulo.ipynb` would give `"a.ipynb_chulo.ipynb"`, but
the code cuts at the FIRST occurrence of `.ipynb` and saves to `"a_chulo.ipynb"`. -/
theorem c9_counterexample :
    save_name "a.ipynb.ipynb" = "a_chulo.ipynb" ∧
      save_name "a.ipynb.ipynb" ≠ "a.ipynb" ++ "_chulo" ++ ".ipynb" := by
  decide

/-- Claim C9 (amended): for every input file path, the saved output path is the
portion of the name strictly before the first occurrence of `'.ipynb'` (the whole name
when `'.ipynb'` does not occur), with `'_chulo.ipynb'` appended. -/
theorem c9_first_occurrence (file : String) :
    ∃ stem : List Char,
      save_name file = String.mk stem ++ "_chulo.ipynb" ∧
      stem <+: file.data ∧
      ¬ ".ipynb".data <:+: stem ∧
      (stem ++ ".ipynb".data <+: file.data ∨
        (stem = file.data ∧ ¬ ".ipynb".data <:+: file.data)) := by
  obtain ⟨h1, h2, h3⟩ := takeUntilSub_spec ".ipynb".data (by decide) file.data
  exact ⟨takeUntilSub ".ipynb".data file.data, rfl, h1, h2, h3⟩

/-- Claim C10: a present-but-empty color list behaves exactly as an absent one: the
transformation produces the same document and no color selection is attempted. -/
theorem c10_empty_colors (cell_id : String) (document : Document) :
    create_new_document cell_id document (some []) =
      create_new_document cell_id document none := by
  have h : processCell (some []) = processCell none := by
    funext acc cell
    rfl
  unfold create_new_document generate_new_cells
  rw [h]

/-- Claim C7: with a non-empty color list, the heading line written by
`create_source_anchor` wraps the title in a span whose color is
`colors[level % len(colors)]`; in particular with `["red", "blue"]` a level-0 title is
wrapped in red, a level-1 title in blue, and a level-2 title cycles back to red. -/
theorem c7_color_cycle :
    (∀ (w : String) (rest : List String) (v : HeadingInfo) (colors : List String),
        colors ≠ [] →
        create_source_anchor (w :: rest) v (some colors) =
          ("<a class=\"anchor\" id=\"" ++ v.anchor ++ "\"></a>\n")
            :: ("#" ++ String.mk (List.replicate v.level '#') ++ " "
                ++ ("<span style=\"color: " ++ colors.getD (v.level % colors.length) ""
                    ++ "\">" ++ v.title ++ "</span>"))
            :: rest) ∧
    maquillate "Intro" 0 ["red", "blue"] = "<span style=\"color: red\">Intro</span>" ∧
    maquillate "Intro" 1 ["red", "blue"] = "<span style=\"color: blue\">Intro</span>" ∧
    maquillate "Intro" 2 ["red", "blue"] = "<span style=\"color: red\">Intro</span>" := by
  refine ⟨?_, by decide, by decide, by decide⟩
  intro w rest v colors hne
  have ht : pyTruthy (some colors) = true := by
    simp [pyTruthy, List.isEmpty_eq_false.mpr hne]
  simp only [create_source_anchor, ht, if_true, maquillate]
  rfl

/-- Witness for C7: a concrete level-0 heading with colors `["red", "blue"]` really is
rendered with the red span. -/
theorem c7_witness :
    (["red", "blue"] : List String) ≠ [] ∧
      create_source_anchor ["# Intro\n"] ⟨"Intro\n", 0, "Intro_0"⟩ (some ["red", "blue"]) =
        ["<a class=\"anchor\" id=\"Intro_0\"></a>\n",
         "# <span style=\"color: red\">Intro\n</span>"] := by
  refine ⟨by decide, ?_⟩
  have h := c7_color_cycle.1 "# Intro\n" [] ⟨"Intro\n", 0, "Intro_0"⟩ ["red", "blue"]
    (by decide)
  exact h.trans (by decide)

/-- Claim C5: a cell that is not markdown, or whose source is empty, or whose first
source line does not start with `'#'`, is appended to the output unchanged and the
heading table is passed through untouched. -/
theorem c5_passthrough (colors : Option (List String)) (T : List HeadingInfo)
    (out : List Cell) (cell : Cell)
    (h : cell.cell_type ≠ "markdown" ∨ cell.source = [] ∨
      pyStartsWith (cell.source.headD "") "#" = false) :
    processCell colors (T, out) cell = (T, out ++ [cell]) := by
  rcases h with h | h | h
  · simp [processCell, h]
  · simp [processCell, h]
  · rcases hs : cell.source with _ | ⟨a, as⟩
    · simp [processCell, hs]
    · rw [hs] at h
      simp only [List.headD_cons] at h
      simp [processCell, hs, h]

/-- Witness for C5: a concrete code cell passes through with a non-empty heading
table unchanged. -/
theorem c5_witness :
    (codeCell.cell_type ≠ "markdown" ∨ codeCell.source = [] ∨
      pyStartsWith (codeCell.source.headD "") "#" = false) ∧
    processCell none ([⟨"t\n", 0, "t_0"⟩], []) codeCell =
      ([⟨"t\n", 0, "t_0"⟩], [codeCell]) :=
  ⟨Or.inl (by decide),
   c5_passthrough none [⟨"t\n", 0, "t_0"⟩] [] codeCell (Or.inl (by decide))⟩

/-- In a document without markdown cells, the fold of `processCell` copies every cell
and leaves the heading table as it started. -/
theorem foldl_no_markdown (colors : Option (List String)) :
    ∀ (cells : List Cell), (∀ c ∈ cells, c.cell_type ≠ "markdown") →
      ∀ acc : List HeadingInfo × List Cell,
        cells.foldl (processCell colors) acc = (acc.1, acc.2 ++ cells) := by
  intro cells
  induction cells with
  | nil => intro _ acc; simp
  | cons c cs ih =>
    intro h acc
    rw [List.foldl_cons]
    have hc : processCell colors acc c = (acc.1, acc.2 ++ [c]) := by
      simp [processCell, h c (List.mem_cons_self c cs)]
    rw [hc, ih (fun x hx => h x (List.mem_cons_of_mem _ hx))]
    simp

/-- Claim C6: on a document with no markdown cell, the transformation returns the
input document with exactly one cell prepended: a contents cell whose source is only
the `" # Table of Contents\n"` header line. -/
theorem c6_no_markdown (cell_id : String) (document : Document)
    (colors : Option (List String))
    (h : ∀ c ∈ document.cells, c.cell_type ≠ "markdown") :
    create_new_document cell_id document colors =
      { document with cells :=
          { cell_type := "markdown", id := cell_id, metadata := [],
            source := [" # Table of Contents\n"] } :: document.cells } := by
  simp only [create_new_document, generate_new_cells]
  rw [foldl_no_markdown colors document.cells h ([], [])]
  rfl

/-- Witness for C6: a concrete one-code-cell document gains just the header-only
contents cell. -/
theorem c6_witness :
    (∀ c ∈ noMdDoc.cells, c.cell_type ≠ "markdown") ∧
    create_new_document "deadbeef" noMdDoc none =
      { noMdDoc with cells :=
          { cell_type := "markdown", id := "deadbeef", metadata := [],
            source := [" # Table of Contents\n"] } :: noMdDoc.cells } :=
  ⟨by decide, c6_no_markdown "deadbeef" noMdDoc none (by decide)⟩

/-- Each loop iteration of `generate_new_cells` appends exactly one output cell. -/
theorem processCell_snd_length (colors : Option (List String))
    (acc : List HeadingInfo × List Cell) (cell : Cell) :
    ((processCell colors acc cell).2).length = acc.2.length + 1 := by
  simp only [processCell]
  repeat' split
  all_goals simp

/-- The fold of `processCell` produces exactly one output cell per input cell. -/
theorem foldl_snd_length (colors : Option (List String)) :
    ∀ (cells : List Cell) (acc : List HeadingInfo × List Cell),
      ((cells.foldl (processCell colors) acc).2).length = acc.2.length + cells.length := by
  intro cells
  induction cells with
  | nil => intro acc; simp
  | cons c cs ih =>
    intro acc
    rw [List.foldl_cons, ih, processCell_snd_length]
    simp
    omega

/-- The transformation always adds exactly one cell (the contents cell). -/
theorem create_new_document_cells_length (cell_id : String) (document : Document)
    (colors : Option (List String)) :
    (create_new_document cell_id document colors).cells.length =
      document.cells.length + 1 := by
  simp only [create_new_document, generate_new_cells]
  simp [foldl_snd_length]

/-- Claim C8: the transformation is not idempotent: re-running it on the output of a
run over a document with at least one recorded heading yields a different document
(each run prepends one more contents cell, so the cell counts differ). -/
theorem c8_not_idempotent (cell_id1 cell_id2 : String) (document : Document)
    (colors : Option (List String))
    (h : 1 ≤ (generate_new_cells document.cells colors).1.length) :
    create_new_document cell_id2 (create_new_document cell_id1 document colors) colors ≠
      create_new_document cell_id1 document colors := by
  intro heq
  have hl := congrArg (fun d : Document => d.cells.length) heq
  simp only [create_new_document_cells_length] at hl
  omega

/-- Witness for C8: the example document has a heading, and re-running the
transformation on its output changes the result. -/
theorem c8_witness :
    1 ≤ (generate_new_cells exDoc.cells none).1.length ∧
      create_new_document "b" (create_new_document "a" exDoc none) none ≠
        create_new_document "a" exDoc none :=
  ⟨by decide, c8_not_idempotent "a" "b" exDoc none (by decide)⟩

/-! ### Decimal representation machinery (for anchor distinctness) -/

/-- Unfolding of `specDigits` below 10. -/
theorem specDigits_lt {n : Nat} (h : n < 10) : specDigits n = [Nat.digitChar n] := by
  unfold specDigits
  rw [if_pos h]

/-- Unfolding of `specDigits` at 10 and above. -/
theorem specDigits_ge {n : Nat} (h : ¬ n < 10) :
    specDigits n = specDigits (n / 10) ++ [Nat.digitChar (n % 10)] := by
  conv_lhs => rw [specDigits]
  rw [if_neg h]

/-- `Nat.digitChar` of a decimal digit is never an underscore. -/
theorem digitChar_lt_ne_underscore : ∀ d, d < 10 → Nat.digitChar d ≠ '_' := by
  decide

/-- Every character of `specDigits n` is the digit character of a decimal digit. -/
theorem mem_specDigits (n : Nat) : ∀ c ∈ specDigits n, ∃ d, d < 10 ∧ c = Nat.digitChar d := by
  induction n using Nat.strong_induction_on with
  | _ n ih =>
    by_cases h : n < 10
    · rw [specDigits_lt h]
      intro c hc
      simp at hc
      exact ⟨n, h, hc⟩
    · rw [specDigits_ge h]
      intro c hc
      rcases List.mem_append.mp hc with hc | hc
      · exact ih (n / 10) (Nat.div_lt_self (by omega) (by omega)) c hc
      · simp at hc
        exact ⟨n % 10, Nat.mod_lt _ (by omega), hc⟩

/-- `specDigits` never returns the empty list. -/
theorem specDigits_ne_nil (n : Nat) : specDigits n ≠ [] := by
  by_cases h : n < 10
  · rw [specDigits_lt h]; simp
  · rw [specDigits_ge h]; simp

/-- With enough fuel, core `Nat.toDigitsCore` in base 10 computes `specDigits`. -/
theorem toDigitsCore_eq_specDigits :
    ∀ (fuel n : Nat) (ds : List Char), n < fuel →
      Nat.toDigitsCore 10 fuel n ds = specDigits n ++ ds := by
  intro fuel
  induction fuel with
  | zero => intro n ds h; omega
  | succ fuel ih =>
    intro n ds h
    simp only [Nat.toDigitsCore]
    by_cases h0 : n / 10 = 0
    · have hn : n < 10 := by
        rcases Nat.lt_or_ge n 10 with h' | h'
        · exact h'
        · exact absurd h0 (by
            have : 1 ≤ n / 10 := Nat.one_le_div_iff (by omega) |>.mpr h'
            omega)
      rw [if_pos h0, specDigits_lt hn, Nat.mod_eq_of_lt hn]
      rfl
    · have hge : 10 ≤ n := by
        by_contra hlt
        exact h0 (Nat.div_eq_of_lt (by omega))
      have hdiv : n / 10 < n := Nat.div_lt_self (by omega) (by omega)
      have hfuel : n / 10 < fuel := by omega
      rw [if_neg h0, ih (n / 10) (Nat.digitChar (n % 10) :: ds) hfuel]
      conv_rhs => rw [specDigits_ge (show ¬ n < 10 by omega)]
      simp

/-- The character data of `Nat.repr` is `specDigits`. -/
theorem repr_data (n : Nat) : (Nat.repr n).data = specDigits n := by
  show (Nat.toDigits 10 n).asString.data = specDigits n
  unfold Nat.toDigits
  rw [toDigitsCore_eq_specDigits (n + 1) n [] (by omega)]
  simp [List.asString]

/-- No character of a decimal `Nat.repr` is an underscore. -/
theorem repr_no_underscore (n : Nat) : ∀ c ∈ (Nat.repr n).data, c ≠ '_' := by
  rw [repr_data]
  intro c hc
  obtain ⟨d, hd, rfl⟩ := mem_specDigits n c hc
  exact digitChar_lt_ne_underscore d hd

/-- `specDigits` is injective. -/
theorem specDigits_injective : ∀ n m : Nat, specDigits n = specDigits m → n = m := by
  have hdc : ∀ a, a < 10 → ∀ b, b < 10 → Nat.digitChar a = Nat.digitChar b → a = b := by
    decide
  intro n
  induction n using Nat.strong_induction_on with
  | _ n ih =>
    intro m h
    by_cases hn : n < 10 <;> by_cases hm : m < 10
    · rw [specDigits_lt hn, specDigits_lt hm] at h
      simp at h
      exact hdc n hn m hm h
    · rw [specDigits_lt hn, specDigits_ge hm] at h
      have hlen := congrArg List.length h
      rw [List.length_append] at hlen
      simp only [List.length_singleton] at hlen
      have hz : (specDigits (m / 10)).length = 0 := by omega
      exact absurd (List.length_eq_zero.mp hz) (specDigits_ne_nil (m / 10))
    · rw [specDigits_ge hn, specDigits_lt hm] at h
      have hlen := congrArg List.length h
      rw [List.length_append] at hlen
      simp only [List.length_singleton] at hlen
      have hz : (specDigits (n / 10)).length = 0 := by omega
      exact absurd (List.length_eq_zero.mp hz) (specDigits_ne_nil (n / 10))
    · rw [specDigits_ge hn, specDigits_ge hm] at h
      obtain ⟨h1, h2⟩ := List.append_inj' h (by simp)
      have hdiv : n / 10 = m / 10 :=
        ih (n / 10) (Nat.div_lt_self (by omega) (by omega)) (m / 10) h1
      have hmod : n % 10 = m % 10 := by
        simp at h2
        exact hdc (n % 10) (Nat.mod_lt _ (by omega)) (m % 10) (Nat.mod_lt _ (by omega)) h2
      omega

/-- Decimal `Nat.repr` is injective (stated on the character data). -/
theorem repr_data_inj {n m : Nat} (h : (Nat.repr n).data = (Nat.repr m).data) : n = m :=
  specDigits_injective n m (by rwa [repr_data, repr_data] at h)

/-- Appending two underscore-free suffixes after an underscore forces them equal. -/
theorem no_underscore_suffix_eq (d e : List Char)
    (hd : ∀ c ∈ d, c ≠ '_') (he : ∀ c ∈ e, c ≠ '_') :
    ∀ a b : List Char, a ++ '_' :: d = b ++ '_' :: e → d = e := by
  intro a
  induction a with
  | nil =>
    intro b h
    cases b with
    | nil => simpa using h
    | cons c bs =>
      simp at h
      exfalso
      exact hd '_' (by rw [h.2]; exact List.mem_append_right _ (List.mem_cons_self _ _)) rfl
  | cons c as ih =>
    intro b h
    cases b with
    | nil =>
      simp at h
      exfalso
      exact he '_' (by rw [← h.2]; exact List.mem_append_right _ (List.mem_cons_self _ _)) rfl
    | cons c' bs =>
      simp at h
      exact ih bs h.2

/-- The character data of a string append. -/
theorem string_data_append (s t : String) : (s ++ t).data = s.data ++ t.data := rfl

/-- Two strings of the shape `prefix ++ "_" ++ Nat.repr k` agree only when the
ordinals agree. -/
theorem underscore_repr_inj (a b : String) (i j : Nat)
    (h : a ++ "_" ++ Nat.repr i = b ++ "_" ++ Nat.repr j) : i = j := by
  have hdata := congrArg String.data h
  rw [string_data_append, string_data_append, string_data_append, string_data_append]
    at hdata
  simp only [List.append_assoc] at hdata
  have h' : a.data ++ '_' :: (Nat.repr i).data = b.data ++ '_' :: (Nat.repr j).data := by
    simpa using hdata
  exact repr_data_inj
    (no_underscore_suffix_eq _ _ (repr_no_underscore i) (repr_no_underscore j)
      a.data b.data h')

/-! ### Structure of the heading table -/

/-- One step of `extract_info`. -/
theorem extract_info_cons (w : String) (ws : List String) (titles : List HeadingInfo) :
    extract_info (w :: ws) titles =
      extract_info ws
        (if pyStartsWith w "#" then titles ++ [mkEntry w titles.length] else titles) := by
  by_cases hw : pyStartsWith w "#" <;>
    simp [extract_info, mkEntry, titleOf, levelOf, anchorOf, hw]

/-- `extract_info` appends exactly the entries contributed by the scanned lines,
numbered from the current table size. -/
theorem extract_info_eq :
    ∀ (source : List String) (titles : List HeadingInfo),
      extract_info source titles = titles ++ entriesFrom titles.length source := by
  intro source
  induction source with
  | nil => intro titles; simp [extract_info, entriesFrom]
  | cons w ws ih =>
    intro titles
    rw [extract_info_cons]
    by_cases hw : pyStartsWith w "#"
    · rw [if_pos hw, ih]
      simp [entriesFrom, hw, List.append_assoc]
    · rw [if_neg hw, ih]
      simp [entriesFrom, hw]

/-- The number of entries contributed equals the number of heading lines. -/
theorem entriesFrom_length :
    ∀ (ws : List String) (n : Nat),
      (entriesFrom n ws).length = (ws.filter (fun w => pyStartsWith w "#")).length := by
  intro ws
  induction ws with
  | nil => intro n; simp [entriesFrom]
  | cons w ws ih =>
    intro n
    by_cases hw : pyStartsWith w "#" <;> simp [entriesFrom, hw, List.filter_cons, ih]

/-- The `j`-th contributed entry is built from the `j`-th heading line with ordinal
`n + j`. -/
theorem entriesFrom_getD :
    ∀ (ws : List String) (n j : Nat), j < (entriesFrom n ws).length →
      (entriesFrom n ws).getD j default =
        mkEntry ((ws.filter (fun w => pyStartsWith w "#")).getD j "") (n + j) := by
  intro ws
  induction ws with
  | nil => intro n j h; simp [entriesFrom] at h
  | cons w ws ih =>
    intro n j h
    by_cases hw : pyStartsWith w "#"
    · rw [show entriesFrom n (w :: ws) = mkEntry w n :: entriesFrom (n + 1) ws from by
        simp [entriesFrom, hw]] at h ⊢
      cases j with
      | zero => simp [List.filter_cons, hw]
      | succ j' =>
        have h' : j' < (entriesFrom (n + 1) ws).length := by
          simp at h
          omega
        rw [List.getD_cons_succ, ih (n + 1) j' h']
        have harith : n + 1 + j' = n + (j' + 1) := by omega
        rw [harith]
        simp [List.filter_cons, hw]
    · rw [show entriesFrom n (w :: ws) = entriesFrom n ws from by
        simp [entriesFrom, hw]] at h ⊢
      rw [ih n j h]
      simp [List.filter_cons, hw]

/-- Restricting to the heading lines first contributes the same entries. -/
theorem entriesFrom_filter :
    ∀ (ws : List String) (n : Nat),
      entriesFrom n (ws.filter (fun w => pyStartsWith w "#")) = entriesFrom n ws := by
  intro ws
  induction ws with
  | nil => intro n; simp
  | cons w ws ih =>
    intro n
    by_cases hw : pyStartsWith w "#" <;>
      simp [List.filter_cons, entriesFrom, hw, ih]

/-- Unfolding `entriesFrom` on a heading line. -/
theorem entriesFrom_cons_pos {w : String} (hw : pyStartsWith w "#" = true)
    (n : Nat) (ws : List String) :
    entriesFrom n (w :: ws) = mkEntry w n :: entriesFrom (n + 1) ws := by
  simp [entriesFrom, hw]

/-- Unfolding `entriesFrom` on a non-heading line. -/
theorem entriesFrom_cons_neg {w : String} (hw : ¬ pyStartsWith w "#" = true)
    (n : Nat) (ws : List String) :
    entriesFrom n (w :: ws) = entriesFrom n ws := by
  simp [entriesFrom, hw]

/-- Entries contributed by an appended line list split accordingly, the second block
numbered past the first. -/
theorem entriesFrom_append :
    ∀ (xs ys : List String) (n : Nat),
      entriesFrom n (xs ++ ys) =
        entriesFrom n xs
          ++ entriesFrom (n + (xs.filter (fun w => pyStartsWith w "#")).length) ys := by
  intro xs
  induction xs with
  | nil => intro ys n; simp [entriesFrom]
  | cons x xs ih =>
    intro ys n
    by_cases hx : pyStartsWith x "#"
    · rw [List.cons_append, entriesFrom_cons_pos hx, ih, entriesFrom_cons_pos hx,
        List.cons_append]
      have harith : n + 1 + (xs.filter (fun w => pyStartsWith w "#")).length =
          n + ((x :: xs).filter (fun w => pyStartsWith w "#")).length := by
        simp [List.filter_cons, hx]
        omega
      rw [harith]
    · rw [List.cons_append, entriesFrom_cons_neg hx, ih, entriesFrom_cons_neg hx]
      have harith : (xs.filter (fun w => pyStartsWith w "#")).length =
          ((x :: xs).filter (fun w => pyStartsWith w "#")).length := by
        simp [List.filter_cons, hx]
      rw [harith]

/-- Variant of `entriesFrom_append` counting with the contributed entries. -/
theorem entriesFrom_append' (xs ys : List String) (n : Nat) :
    entriesFrom n (xs ++ ys) =
      entriesFrom n xs ++ entriesFrom (n + (entriesFrom n xs).length) ys := by
  rw [entriesFrom_append, entriesFrom_length]

/-- Indexing an append past the first block. -/
theorem getD_append_size {α : Type} (T L : List α) (d : α) (m : Nat) :
    (T ++ L).getD (T.length + m) d = L.getD m d := by
  induction T with
  | nil => simp
  | cons t ts ih =>
    simp only [List.cons_append, List.length_cons]
    rw [show ts.length + 1 + m = (ts.length + m) + 1 from by omega,
      List.getD_cons_succ, ih]

/-- Unpacking the `qualifies` flag. -/
theorem qualifies_iff {cell : Cell} :
    qualifies cell = true ↔
      cell.cell_type = "markdown" ∧ cell.source.isEmpty = false ∧
        pyStartsWith (cell.source.headD "") "#" = true := by
  simp [qualifies, Bool.and_eq_true, Bool.not_eq_true', and_assoc]

/-- A qualifying cell's source is non-empty and its first line is a heading line. -/
theorem qualifies_source {cell : Cell} (hq : qualifies cell = true) :
    ∃ a as, cell.source = a :: as ∧ pyStartsWith a "#" = true := by
  obtain ⟨-, h2, h3⟩ := qualifies_iff.mp hq
  cases hs : cell.source with
  | nil => rw [hs] at h2; simp at h2
  | cons a as =>
    refine ⟨a, as, rfl, ?_⟩
    rw [hs] at h3
    simpa using h3

/-- The scan of a qualifying cell's source grows the table. -/
theorem extract_info_qualifies_len {cell : Cell} (hq : qualifies cell = true)
    (T : List HeadingInfo) : (extract_info cell.source T).length ≠ 0 := by
  obtain ⟨a, as, hs, ha⟩ := qualifies_source hq
  rw [hs, extract_info_eq, List.length_append, entriesFrom_cons_pos ha]
  simp

/-- The loop body on a cell that does not qualify: passthrough. -/
theorem processCell_pass (colors : Option (List String)) (T : List HeadingInfo)
    (out : List Cell) (cell : Cell)
    (h : cell.cell_type ≠ "markdown" ∨ cell.source = [] ∨
      pyStartsWith (cell.source.headD "") "#" = false) :
    processCell colors (T, out) cell = (T, out ++ [cell]) := by
  rcases h with h | h | h
  · simp [processCell, h]
  · simp [processCell, h]
  · rcases hs : cell.source with _ | ⟨a, as⟩
    · simp [processCell, hs]
    · rw [hs] at h
      simp only [List.headD_cons] at h
      simp [processCell, hs, h]

/-- The loop body on a cell with a false `qualifies` flag: passthrough. -/
theorem processCell_not_qualifies {colors : Option (List String)}
    {T : List HeadingInfo} {out : List Cell} {cell : Cell}
    (hq : ¬ qualifies cell = true) :
    processCell colors (T, out) cell = (T, out ++ [cell]) := by
  apply processCell_pass
  by_cases h1 : cell.cell_type = "markdown"
  · by_cases h2 : cell.source = []
    · exact Or.inr (Or.inl h2)
    · refine Or.inr (Or.inr ?_)
      rcases hb : pyStartsWith (cell.source.headD "") "#" with _ | _
      · rfl
      · exact absurd (qualifies_iff.mpr ⟨h1, by simpa using h2, hb⟩) hq
  · exact Or.inl h1

/-- The loop body on a qualifying cell: scan the source into the table and append
the annotated cell built from the table's last entry. -/
theorem processCell_qualifies {colors : Option (List String)}
    {T : List HeadingInfo} {out : List Cell} {cell : Cell}
    (hq : qualifies cell = true) :
    processCell colors (T, out) cell =
      (extract_info cell.source T,
       out ++ [{ cell with
          source := create_source_anchor cell.source (lastEntry T cell.source) colors }]) := by
  obtain ⟨h1, h2, h3⟩ := qualifies_iff.mp hq
  have h3' : pyStartsWith (cell.source.head?.getD "") "#" = true := by simpa using h3
  simp only [processCell]
  rw [if_neg (by simp [h1])]
  rw [if_neg (by simp [h2, h3'])]
  rw [if_neg (extract_info_qualifies_len hq T)]
  rfl

/-- The heading table produced by the fold is exactly the entries of all heading
lines in encounter order, numbered from the size of the starting table. -/
theorem foldl_fst_eq (colors : Option (List String)) :
    ∀ (cells : List Cell) (T : List HeadingInfo) (out : List Cell),
      (cells.foldl (processCell colors) (T, out)).1 =
        T ++ entriesFrom T.length (headingLines cells) := by
  intro cells
  induction cells with
  | nil => intro T out; simp [headingLines, entriesFrom]
  | cons cell cs ih =>
    intro T out
    rw [List.foldl_cons]
    by_cases hq : qualifies cell = true
    · rw [processCell_qualifies hq, ih, extract_info_eq]
      show _ = T ++ entriesFrom T.length (headingLines (cell :: cs))
      rw [headingLines, if_pos hq, entriesFrom_append', entriesFrom_filter]
      simp [List.append_assoc, List.length_append]
    · rw [processCell_not_qualifies hq, ih]
      show _ = T ++ entriesFrom T.length (headingLines (cell :: cs))
      rw [headingLines, if_neg hq]
      simp

/-- Claim C2, counterexample: on the line `"# a #\n"` (one leading `'#'`, another
`'#'` later in the line) the recorded level is 1, not the leading-run value 0, because
the code counts every `'#'` in the line; consequently the recorded title is `" #\n"`,
not the text after the leading run and one space (`"a #\n"`). And on `"# a  b\n"` the
recorded anchor is `"a__b_0"`: each space becomes its own underscore, hence not the
whitespace-collapsed `"a_b" ++ "_" ++ 0`. -/
theorem c2_counterexample :
    ((extract_info ["# a #\n"] []).getD 0 default).level ≠ specLeadingLevel "# a #\n" ∧
    ((extract_info ["# a #\n"] []).getD 0 default).title ≠ "a #\n" ∧
    ((extract_info ["# a  b\n"] []).getD 0 default).anchor ≠ "a_b" ++ "_" ++ Nat.repr 0 := by
  decide

/-- Claim C2 (amended): for every heading line recorded in the table, its level is the
count of ALL `'#'` characters in the line minus one, its title is the line with its
first `level + 2` characters removed, and its anchor is the title stripped of trailing
whitespace with each space character replaced by an underscore, suffixed with an
underscore and the heading's zero-based ordinal in global encounter order. -/
theorem c2_heading_fields (source : List String) (j : Nat)
    (hj : j < (extract_info source []).length) :
    ((extract_info source []).getD j default).level =
      countHash ((source.filter (fun w => pyStartsWith w "#")).getD j "") - 1 ∧
    ((extract_info source []).getD j default).title =
      pyDrop ((source.filter (fun w => pyStartsWith w "#")).getD j "")
        (((extract_info source []).getD j default).level + 2) ∧
    ((extract_info source []).getD j default).anchor =
      pyReplaceSpace (pyRstrip (((extract_info source []).getD j default).title))
        ++ "_" ++ Nat.repr j := by
  have he : extract_info source [] = entriesFrom 0 source := by
    rw [extract_info_eq]
    simp
  rw [he] at hj ⊢
  rw [entriesFrom_getD source 0 j hj]
  simp [mkEntry, anchorOf, titleOf, levelOf]

/-- Witness for C2 (amended): the two headings of a concrete source are recorded with
the stated level, title, and anchor. -/
theorem c2_witness :
    1 < (extract_info ["# A\n", "## B\n"] []).length ∧
    (((extract_info ["# A\n", "## B\n"] []).getD 1 default).level =
        countHash (((["# A\n", "## B\n"] : List String).filter
          (fun w => pyStartsWith w "#")).getD 1 "") - 1 ∧
      ((extract_info ["# A\n", "## B\n"] []).getD 1 default).title =
        pyDrop (((["# A\n", "## B\n"] : List String).filter
            (fun w => pyStartsWith w "#")).getD 1 "")
          (((extract_info ["# A\n", "## B\n"] []).getD 1 default).level + 2) ∧
      ((extract_info ["# A\n", "## B\n"] []).getD 1 default).anchor =
        pyReplaceSpace (pyRstrip (((extract_info ["# A\n", "## B\n"] []).getD 1
            default).title))
          ++ "_" ++ Nat.repr 1) :=
  ⟨by decide, c2_heading_fields ["# A\n", "## B\n"] 1 (by decide)⟩

/-- Claim C3: the heading table built over any document has, at every index `i`, an
anchor of the form `<slug>_<i>` (slug = the entry's title, right-stripped, spaces to
underscores), so the ordinals are exactly `0..N-1` in encounter order; and any two
entries at distinct indices have distinct anchors. -/
theorem c3_anchor_unique (cells : List Cell) (colors : Option (List String)) :
    (∀ i, i < (generate_new_cells cells colors).1.length →
        ((generate_new_cells cells colors).1.getD i default).anchor =
          pyReplaceSpace
              (pyRstrip (((generate_new_cells cells colors).1.getD i default).title))
            ++ "_" ++ Nat.repr i) ∧
    (∀ i j, i < (generate_new_cells cells colors).1.length →
        j < (generate_new_cells cells colors).1.length → i ≠ j →
        ((generate_new_cells cells colors).1.getD i default).anchor ≠
          ((generate_new_cells cells colors).1.getD j default).anchor) := by
  have hfst : (generate_new_cells cells colors).1 = entriesFrom 0 (headingLines cells) := by
    show (cells.foldl (processCell colors) ([], [])).1 = _
    rw [foldl_fst_eq]
    simp
  constructor
  · intro i hi
    rw [hfst] at hi ⊢
    rw [entriesFrom_getD _ 0 i hi]
    simp [mkEntry, anchorOf, titleOf]
  · intro i j hi hj hne heq
    rw [hfst] at hi hj heq
    rw [entriesFrom_getD _ 0 i hi, entriesFrom_getD _ 0 j hj] at heq
    simp only [mkEntry, anchorOf, Nat.zero_add] at heq
    exact hne (underscore_repr_inj _ _ i j heq)

/-- Witness for C3: the two anchors recorded over the example document have the
stated `slug_ordinal` shape and are distinct. -/
theorem c3_witness :
    0 < (generate_new_cells exDoc.cells none).1.length ∧
    1 < (generate_new_cells exDoc.cells none).1.length ∧
    (0 : Nat) ≠ 1 ∧
    ((generate_new_cells exDoc.cells none).1.getD 0 default).anchor =
      pyReplaceSpace
          (pyRstrip (((generate_new_cells exDoc.cells none).1.getD 0 default).title))
        ++ "_" ++ Nat.repr 0 ∧
    ((generate_new_cells exDoc.cells none).1.getD 0 default).anchor ≠
      ((generate_new_cells exDoc.cells none).1.getD 1 default).anchor :=
  ⟨by decide, by decide, by decide,
   (c3_anchor_unique exDoc.cells none).1 0 (by decide),
   (c3_anchor_unique exDoc.cells none).2 0 1 (by decide) (by decide) (by decide)⟩

/-- Claim C4: on a markdown cell whose first line is a heading line, the scan records
one table entry per `'#'`-starting line (consecutive ordinals continuing from the
current table, each anchor suffixed with its own ordinal), yet the rewritten cell gets
exactly one anchor tag line prepended, carrying the anchor of the LAST appended entry,
and its heading line is re-rendered from that same last entry's level and title. -/
theorem c4_last_entry (colors : Option (List String)) (T : List HeadingInfo)
    (out : List Cell) (cell : Cell) (w : String) (rest : List String)
    (htype : cell.cell_type = "markdown") (hsrc : cell.source = w :: rest)
    (hw : pyStartsWith w "#" = true) :
    1 ≤ ((w :: rest).filter (fun s => pyStartsWith s "#")).length ∧
    (extract_info (w :: rest) T).length =
      T.length + ((w :: rest).filter (fun s => pyStartsWith s "#")).length ∧
    (∀ m, m < ((w :: rest).filter (fun s => pyStartsWith s "#")).length →
        ((extract_info (w :: rest) T).getD (T.length + m) default).anchor =
          pyReplaceSpace
              (pyRstrip (((extract_info (w :: rest) T).getD (T.length + m)
                default).title))
            ++ "_" ++ Nat.repr (T.length + m)) ∧
    processCell colors (T, out) cell =
      (extract_info (w :: rest) T,
       out ++ [{ cell with source :=
          ("<a class=\"anchor\" id=\"" ++ (lastEntry T (w :: rest)).anchor ++ "\"></a>\n")
            :: ("#" ++ String.mk (List.replicate (lastEntry T (w :: rest)).level '#') ++ " "
                ++ (if pyTruthy colors then
                      maquillate (lastEntry T (w :: rest)).title
                        (lastEntry T (w :: rest)).level (colors.getD [])
                    else (lastEntry T (w :: rest)).title))
            :: rest }]) := by
  have hq : qualifies cell = true := by
    apply qualifies_iff.mpr
    refine ⟨htype, by simp [hsrc], by simp [hsrc, hw]⟩
  have hk : 1 ≤ ((w :: rest).filter (fun s => pyStartsWith s "#")).length := by
    simp [List.filter_cons, hw]
  have hlen : (extract_info (w :: rest) T).length =
      T.length + ((w :: rest).filter (fun s => pyStartsWith s "#")).length := by
    rw [extract_info_eq, List.length_append, entriesFrom_length]
  refine ⟨hk, hlen, ?_, ?_⟩
  · intro m hm
    rw [extract_info_eq, getD_append_size]
    rw [entriesFrom_getD _ T.length m (by rw [entriesFrom_length]; exact hm)]
    simp [mkEntry, anchorOf, titleOf]
  · rw [processCell_qualifies hq]
    rw [hsrc]
    simp only [create_source_anchor, List.set]

/-- Witness for C4: a concrete cell with two heading lines records two entries but is
rewritten with a single anchor line, built from the second (last) entry `B_1`; the
original first line is overwritten by the last entry's rendering `"## B\n"`. -/
theorem c4_witness :
    mdCell2.cell_type = "markdown" ∧
    mdCell2.source = ["# A\n", "## B\n"] ∧
    pyStartsWith "# A\n" "#" = true ∧
    (extract_info ["# A\n", "## B\n"] []).length = 0 + 2 ∧
    processCell none ([], []) mdCell2 =
      (extract_info ["# A\n", "## B\n"] [],
       [{ mdCell2 with
          source := ["<a class=\"anchor\" id=\"B_1\"></a>\n", "## B\n", "## B\n"] }]) := by
  have h := c4_last_entry none [] [] mdCell2 "# A\n" ["## B\n"] rfl rfl (by decide)
  exact ⟨rfl, rfl, by decide, h.2.1.trans (by decide), h.2.2.2.trans (by decide)⟩

end DressUp
